import Mathlib

/-!
Verification of the swiflow Python layer (`swiflow/_common.py`, `swiflow/common.py`,
`swiflow/flow.py`, `swiflow/gflow.py`, `swiflow/pflow.py`) against its
natural-language specification.

Vertices are embedded as natural numbers (the library maps arbitrary hashable
identities to dense indices at the boundary; the claims under study are
index-independent).  `networkx.Graph` is embedded as a node set together with an
adjacency function, Python `Mapping`s as a key set together with a value
function, and Python functions that raise `ValueError` as `Except String`
computations carrying the exact message strings of the source.
-/

namespace Swiflow

/-- Measurement planes, the closed enumeration `{XY, YZ, XZ}` exposed by the
native `gflow` module (`Plane = gflow.Plane` in `common.py`). -/
inductive Plane where
  | XY | YZ | XZ
deriving DecidableEq

/-- Measurement planes or Pauli indices, the closed enumeration
`{XY, YZ, XZ, X, Y, Z}` exposed by the native `pflow` module
(`PPlane = pflow.PPlane` in `common.py`). -/
inductive PPlane where
  | XY | YZ | XZ | X | Y | Z
deriving DecidableEq

/-- `networkx.Graph`: a set of nodes plus the neighbor sets `g.neighbors v`
(equivalently `g[v].keys()`). -/
structure SGraph where
  nodes : Finset ℕ
  adj : ℕ → Finset ℕ

/-- A Python `Mapping` with vertex keys: the key set plus the stored value for
each key (values outside `dom` are junk and never observed). -/
structure VMap (α : Type) where
  dom : Finset ℕ
  val : ℕ → α

/-- `mapping.get(v)`: `some` of the stored value on keys, `none` elsewhere. -/
def VMap.get {α : Type} (m : VMap α) (v : ℕ) : Option α :=
  if v ∈ m.dom then some (m.val v) else none

/-- `_common.odd_neighbors(g, kset)`: starting from the empty set, fold
`ret.symmetric_difference_update(g.neighbors(k))` over the elements of `kset`.
Python iterates the set in an unspecified order, so the iteration order is an
explicit list argument here. -/
def odd_neighbors (g : SGraph) (kset : List ℕ) : Finset ℕ :=
  kset.foldl (fun ret k => symmDiff ret (g.adj k)) ∅

/-- A duplicate-free enumeration of a finite set of naturals in increasing
order (used to iterate Python sets; the fold below is order-independent). -/
def enumList (s : Finset ℕ) : List ℕ :=
  (List.range (s.sup id + 1)).filter (fun v => decide (v ∈ s))

lemma enumList_nodup (s : Finset ℕ) : (enumList s).Nodup :=
  (List.nodup_range _).filter _

lemma enumList_toFinset (s : Finset ℕ) : (enumList s).toFinset = s := by
  ext v
  simp only [enumList, List.mem_toFinset, List.mem_filter, List.mem_range,
    decide_eq_true_eq]
  constructor
  · exact fun h => h.2
  · intro hv
    exact ⟨Nat.lt_succ_of_le (Finset.le_sup (f := id) hv), hv⟩

/-- The value of `odd_neighbors` on a `Finset`, iterated in increasing order.
By `odd_neighbors_spec` the fold is order-independent, so this is the value the
Python function computes on the set regardless of hash order. -/
def oddN (g : SGraph) (s : Finset ℕ) : Finset ℕ :=
  odd_neighbors g (enumList s)

lemma mem_foldl_symmDiff (adj : ℕ → Finset ℕ) (v : ℕ) :
    ∀ (l : List ℕ) (s : Finset ℕ),
      v ∈ l.foldl (fun ret k => symmDiff ret (adj k)) s ↔
        Xor' (v ∈ s) (Odd (l.countP (fun k => decide (v ∈ adj k)))) := by
  intro l
  induction l with
  | nil =>
    intro s
    simp [Xor', Nat.odd_iff]
  | cons k l ih =>
    intro s
    rw [List.foldl_cons, ih (symmDiff s (adj k))]
    by_cases hk : v ∈ adj k
    · simp [List.countP_cons, hk, Finset.mem_symmDiff, Nat.odd_add_one, Xor']
      tauto
    · simp [List.countP_cons, hk, Finset.mem_symmDiff, Nat.odd_add_one, Xor']

lemma mem_odd_neighbors (g : SGraph) (l : List ℕ) (v : ℕ) :
    v ∈ odd_neighbors g l ↔ Odd (l.countP (fun k => decide (v ∈ g.adj k))) := by
  rw [odd_neighbors, mem_foldl_symmDiff]
  simp [Xor']

lemma countP_eq_card_filter_toFinset (l : List ℕ) (hl : l.Nodup) (p : ℕ → Bool) :
    l.countP p = (l.toFinset.filter (fun a => p a)).card := by
  have h1 : (l.filter p).toFinset = l.toFinset.filter (fun a => p a) := by
    ext a
    simp
  have h2 : (l.filter p).toFinset.card = (l.filter p).length :=
    List.toFinset_card_of_nodup (hl.filter p)
  rw [← h1, h2, List.countP_eq_length_filter]

lemma mem_oddN (g : SGraph) (s : Finset ℕ) (v : ℕ) :
    v ∈ oddN g s ↔ Odd ((s.filter (fun k => v ∈ g.adj k)).card) := by
  rw [oddN, mem_odd_neighbors,
    countP_eq_card_filter_toFinset _ (enumList_nodup s), enumList_toFinset]
  simp

/-- C1: `odd_neighbors(g, K)` returns exactly `{ v : |N(v) ∩ K| is odd }` on a
simple undirected graph; the symmetric-difference fold gives the same result
for every iteration order over `K`; on a singleton it returns `N(k)` and on the
empty set it returns `∅`. -/
theorem odd_neighbors_spec (g : SGraph) (l : List ℕ)
    (hsym : ∀ a b : ℕ, a ∈ g.adj b ↔ b ∈ g.adj a) (hnd : l.Nodup) :
    (∀ v, v ∈ odd_neighbors g l ↔ Odd ((g.adj v ∩ l.toFinset).card)) ∧
      (∀ l2 : List ℕ, l2.Nodup → l2.toFinset = l.toFinset →
        odd_neighbors g l2 = odd_neighbors g l) ∧
      (∀ k, odd_neighbors g [k] = g.adj k) ∧
      odd_neighbors g [] = ∅ := by
  refine ⟨?_, ?_, ?_, ?_⟩
  · intro v
    rw [mem_odd_neighbors, countP_eq_card_filter_toFinset _ hnd]
    have : l.toFinset.filter (fun k => decide (v ∈ g.adj k)) = g.adj v ∩ l.toFinset := by
      ext k
      simp only [Finset.mem_filter, Finset.mem_inter, decide_eq_true_eq]
      rw [hsym k v]
      tauto
    rw [this]
  · intro l2 hnd2 htf
    ext v
    rw [mem_odd_neighbors, mem_odd_neighbors,
      countP_eq_card_filter_toFinset _ hnd, countP_eq_card_filter_toFinset _ hnd2, htf]
  · intro k
    simp [odd_neighbors]
  · rfl

/-- A two-node path graph `0 - 1`, used as a concrete instance. -/
def gPath2 : SGraph :=
  ⟨{0, 1}, fun v => if v = 0 then {1} else if v = 1 then {0} else ∅⟩

lemma gPath2_sym : ∀ a b : ℕ, a ∈ gPath2.adj b ↔ b ∈ gPath2.adj a := by
  intro a b
  by_cases hb0 : b = 0 <;> by_cases hb1 : b = 1 <;>
    by_cases ha0 : a = 0 <;> by_cases ha1 : a = 1 <;>
    simp_all [gPath2]

/-- Witness for C1 at the concrete graph `0 - 1` and `K = [0]`. -/
theorem odd_neighbors_spec_witness :
    (1 ∈ odd_neighbors gPath2 [0] ↔ Odd ((gPath2.adj 1 ∩ [0].toFinset).card)) ∧
      odd_neighbors gPath2 [0] = gPath2.adj 0 := by
  have h := odd_neighbors_spec gPath2 [0] gPath2_sym (by decide)
  exact ⟨h.1 1, h.2.2.1 0⟩

/-- A value of a flow-like `Mapping`: either a bare vertex (causal flow
`f : V → V`) or a vertex set (gflow/pflow `f : V → P(V)`).  Mirrors the
`_V | AbstractSet[_V]` union type of `anyflow`. -/
inductive AnyF where
  | single (v : ℕ)
  | subset (s : Finset ℕ)

/-- The normalization `fu = fu_ if isinstance(fu_, AbstractSet) else {fu_}`
performed by `_special_edges` and `infer_layers`. -/
def AnyF.toSet : AnyF → Finset ℕ
  | .single v => {v}
  | .subset s => s

/-- `common._is_special(pp, in_fu, in_fu_odd)`: the special-edge test on the
measurement of the target vertex. -/
def is_special (pp : Option PPlane) (in_fu : Bool) (in_fu_odd : Bool) : Bool :=
  match pp with
  | some .X => in_fu
  | some .Y => in_fu && in_fu_odd
  | some .Z => in_fu_odd
  | _ => false

/-- `common._special_edges(g, anyflow, pplane)`: the set of ordered pairs
`(u, v)` with `u` in the flow domain, `v ∈ f(u) ∪ Odd(f(u))`, `v ≠ u`, and
`_is_special(pplane.get(v), v ∈ f(u), v ∈ Odd(f(u)))`; empty when `pplane` is
`None`. -/
def special_edges (g : SGraph) (anyflow : VMap AnyF) (pplane : Option (VMap PPlane)) :
    Finset (ℕ × ℕ) :=
  match pplane with
  | none => ∅
  | some pm =>
    anyflow.dom.biUnion (fun u =>
      ((anyflow.val u).toSet ∪ oddN g (anyflow.val u).toSet).filter (fun v =>
          v ≠ u ∧
            is_special (pm.get v) (decide (v ∈ (anyflow.val u).toSet))
              (decide (v ∈ oddN g (anyflow.val u).toSet)) = true)
        |>.image (fun v => (u, v)))

lemma mem_special_edges (g : SGraph) (f : VMap AnyF) (pm : VMap PPlane) (u v : ℕ) :
    (u, v) ∈ special_edges g f (some pm) ↔
      u ∈ f.dom ∧ v ∈ (f.val u).toSet ∪ oddN g (f.val u).toSet ∧ v ≠ u ∧
        is_special (pm.get v) (decide (v ∈ (f.val u).toSet))
          (decide (v ∈ oddN g (f.val u).toSet)) = true := by
  simp only [special_edges, Finset.mem_biUnion, Finset.mem_image, Finset.mem_filter,
    Prod.mk.injEq]
  constructor
  · rintro ⟨u', hu', v', ⟨hv'mem, hv'ne, hv'sp⟩, hu'eq, hv'eq⟩
    subst hu'eq
    subst hv'eq
    exact ⟨hu', hv'mem, hv'ne, hv'sp⟩
  · rintro ⟨hu, hv, hne, hsp⟩
    exact ⟨u, hu, v, ⟨hv, hne, hsp⟩, rfl, rfl⟩

/-- C2: an ordered pair `(u, v)` with `u` in the flow domain,
`v ∈ f(u) ∪ Odd(f(u))` and `v ≠ u` is special iff `p(v) = X` and `v ∈ f(u)`,
or `p(v) = Y` and `v ∈ f(u) ∩ Odd(f(u))`, or `p(v) = Z` and `v ∈ Odd(f(u))`;
for every other measurement of `v` (`XY`, `YZ`, `XZ`, or `v` unmeasured) the
pair is not special, and with no Pauli map the special-edge set is empty. -/
theorem special_edges_spec (g : SGraph) (f : VMap AnyF) (pm : VMap PPlane) (u v : ℕ)
    (hu : u ∈ f.dom) (hv : v ∈ (f.val u).toSet ∪ oddN g (f.val u).toSet)
    (hne : v ≠ u) :
    ((u, v) ∈ special_edges g f (some pm) ↔
      (pm.get v = some .X ∧ v ∈ (f.val u).toSet) ∨
        (pm.get v = some .Y ∧ v ∈ (f.val u).toSet ∧ v ∈ oddN g (f.val u).toSet) ∨
        (pm.get v = some .Z ∧ v ∈ oddN g (f.val u).toSet)) ∧
      (∀ (g' : SGraph) (f' : VMap AnyF), special_edges g' f' none = ∅) := by
  refine ⟨?_, fun _ _ => rfl⟩
  rw [mem_special_edges]
  rcases hpp : pm.get v with _ | pp
  · simp [is_special, hpp]
  · cases pp <;>
      simp [is_special, hpp, hu, hv, hne, Bool.and_eq_true, decide_eq_true_eq]

/-- Witness for C2: in the graph `0 - 1` with `f(0) = {1}` and `1` measured in
Pauli `X`, the pair `(0, 1)` is special. -/
theorem special_edges_spec_witness :
    (0, 1) ∈ special_edges gPath2 ⟨{0}, fun _ => .subset {1}⟩
      (some ⟨{0, 1}, fun _ => .X⟩) := by
  have h := special_edges_spec gPath2 ⟨{0}, fun _ => .subset {1}⟩
    ⟨{0, 1}, fun _ => .X⟩ 0 1 (by decide) (by decide) (by decide)
  exact h.1.mpr (Or.inl (by constructor <;> decide))

/-- The out-neighbor sets built by `common.infer_layers`: after the
construction loop, `pred[u]` holds every `v ∈ (f(u) ∪ Odd(f(u))) \ {u}` with
`(u, v)` not special (the comment `# Reversed` in the source: `pred[u].add(v)`
for the must-precede edge `u → v`), and is empty for nodes outside the flow
domain. -/
def pred_set (g : SGraph) (f : VMap AnyF) (pplane : Option (VMap PPlane)) (u : ℕ) :
    Finset ℕ :=
  if u ∈ f.dom then
    ((f.val u).toSet ∪ oddN g (f.val u).toSet).filter (fun v =>
      v ≠ u ∧ (u, v) ∉ special_edges g f pplane)
  else ∅

/-- The in-neighbor sets built by `common.infer_layers`: `succ[v]` holds every
`u` whose construction step added `v` to `pred[u]`. -/
def succ_set (g : SGraph) (f : VMap AnyF) (pplane : Option (VMap PPlane)) (v : ℕ) :
    Finset ℕ :=
  f.dom.filter (fun u => v ∈ pred_set g f pplane u)

/-- One must-precede edge `u → v` of the directed graph `D` built by
`infer_layers`: `v ∈ (f(u) ∪ Odd(f(u))) \ {u}` and `(u, v)` is not special. -/
def must_precede (g : SGraph) (f : VMap AnyF) (pplane : Option (VMap PPlane))
    (u v : ℕ) : Prop :=
  u ∈ f.dom ∧ v ∈ (f.val u).toSet ∪ oddN g (f.val u).toSet ∧ v ≠ u ∧
    (u, v) ∉ special_edges g f pplane

instance (g : SGraph) (f : VMap AnyF) (pplane : Option (VMap PPlane)) (u v : ℕ) :
    Decidable (must_precede g f pplane u v) := by
  unfold must_precede
  infer_instance

lemma mem_pred_set (g : SGraph) (f : VMap AnyF) (pplane : Option (VMap PPlane))
    (u v : ℕ) : v ∈ pred_set g f pplane u ↔ must_precede g f pplane u v := by
  rw [pred_set, must_precede]
  by_cases hu : u ∈ f.dom
  · simp only [hu, if_true, Finset.mem_filter, true_and]
  · simp [hu]

lemma mem_succ_set (g : SGraph) (f : VMap AnyF) (pplane : Option (VMap PPlane))
    (u v : ℕ) : u ∈ succ_set g f pplane v ↔ v ∈ pred_set g f pplane u := by
  rw [succ_set, Finset.mem_filter]
  constructor
  · exact fun h => h.2
  · intro h
    refine ⟨?_, h⟩
    rw [pred_set] at h
    by_cases hu : u ∈ f.dom
    · exact hu
    · simp [hu] at h

/-- The Kahn-style peeling loop of `common._infer_layers_impl`.  One iteration
of the Python `for l_now in itertools.count()` body: every `u ∈ work` receives
layer `l_now` (`ret[u] = l_now`), each `u ∈ work` is discarded from `pred[v]`
for its in-neighbors `v ∈ succ[u]`, and the vertices whose `pred` entry became
empty form the next work set.  The Python loop is unbounded but assigns at
least one fresh vertex per iteration; callers pass ample fuel. -/
def infer_loop (succ : ℕ → Finset ℕ) : ℕ → (ℕ → Finset ℕ) → Finset ℕ → ℕ →
    Finset ℕ → (ℕ → ℕ) → Finset ℕ × (ℕ → ℕ)
  | 0, _, _, _, assigned, layer => (assigned, layer)
  | fuel + 1, pred, work, lnow, assigned, layer =>
    if work = ∅ then (assigned, layer)
    else
      infer_loop succ fuel
        (fun v => pred v \ work.filter (fun u => v ∈ succ u))
        ((work.biUnion succ).filter (fun v =>
          pred v \ work.filter (fun u => v ∈ succ u) = ∅))
        (lnow + 1) (assigned ∪ work)
        (fun v => if v ∈ work then lnow else layer v)

/-- `common._infer_layers_impl(pred, succ)`: seed the work set with the
vertices whose `pred` entry is empty, run the peeling loop, and raise
`ValueError` when not all of the `len(succ)` keys received a layer.  The
result is returned as the pair (assigned key set, layer lookup), i.e. the
`ret` dictionary. -/
def infer_layers_impl (V : Finset ℕ) (pred succ : ℕ → Finset ℕ) :
    Except String (Finset ℕ × (ℕ → ℕ)) :=
  let r := infer_loop succ (V.card + 1) pred (V.filter (fun u => pred u = ∅)) 0 ∅
    (fun _ => 0)
  if r.1.card ≠ V.card then Except.error "Failed to determine layer for all nodes."
  else Except.ok r

/-- `common.infer_layers(g, anyflow, pplane)`: build the special-edge set and
the `pred`/`succ` dictionaries over `g.nodes`, then run
`_infer_layers_impl`. -/
def infer_layers (g : SGraph) (anyflow : VMap AnyF)
    (pplane : Option (VMap PPlane) := none) : Except String (Finset ℕ × (ℕ → ℕ)) :=
  infer_layers_impl g.nodes (pred_set g anyflow pplane) (succ_set g anyflow pplane)

/-- Invariant-based description of the peeling loop, for `pred`/`succ`
dictionaries that mirror one relation `P0` (as built by `infer_layers`).
`assigned`/`layer` accumulate the `ret` dictionary; the conclusions describe
the dictionary the loop returns. -/
lemma infer_loop_spec (V : Finset ℕ) (P0 succ : ℕ → Finset ℕ)
    (Hsucc : ∀ u v : ℕ, u ∈ succ v ↔ v ∈ P0 u)
    (HsuccV : ∀ v : ℕ, succ v ⊆ V) :
    ∀ (fuel : ℕ) (pred : ℕ → Finset ℕ) (work : Finset ℕ) (lnow : ℕ)
      (assigned : Finset ℕ) (layer : ℕ → ℕ) (A : Finset ℕ) (L : ℕ → ℕ),
    (∀ x, pred x = P0 x \ assigned) →
    (∀ u ∈ work, P0 u ⊆ assigned) →
    (∀ u ∈ work, u ∉ assigned) →
    work ⊆ V →
    assigned ⊆ V →
    (∀ v ∈ assigned, layer v < lnow) →
    (∀ v ∈ assigned, ∀ w ∈ P0 v, w ∈ assigned ∧ layer w < layer v) →
    (∀ v ∈ assigned, layer v = 0 → P0 v = ∅) →
    (∀ u ∈ work, lnow = 0 → P0 u = ∅) →
    (∀ u ∈ V, P0 u = ∅ → (u ∈ assigned ∧ layer u = 0) ∨ (u ∈ work ∧ lnow = 0)) →
    infer_loop succ fuel pred work lnow assigned layer = (A, L) →
    assigned ⊆ A ∧ A ⊆ V ∧ (∀ v ∈ assigned, L v = layer v) ∧
      (∀ v ∈ A, ∀ w ∈ P0 v, w ∈ A ∧ L w < L v) ∧
      (∀ v ∈ A, L v = 0 → P0 v = ∅) ∧
      (∀ u ∈ V, P0 u = ∅ → u ∈ A → L u = 0) := by
  intro fuel
  induction fuel with
  | zero =>
    intro pred work lnow assigned layer A L hpred hw1 hw2 hwV haV ha1 ha2 ha3 hw3 hz hres
    rw [infer_loop] at hres
    obtain ⟨rfl, rfl⟩ := Prod.mk.injEq .. ▸ hres
    refine ⟨Finset.Subset.refl _, haV, fun v _ => rfl, ha2, ha3, ?_⟩
    intro u huV h0 huA
    rcases hz u huV h0 with ⟨_, hl0⟩ | ⟨hw, _⟩
    · exact hl0
    · exact absurd huA (hw2 u hw)
  | succ fuel ih =>
    intro pred work lnow assigned layer A L hpred hw1 hw2 hwV haV ha1 ha2 ha3 hw3 hz hres
    rw [infer_loop] at hres
    by_cases hwe : work = ∅
    · rw [if_pos hwe] at hres
      obtain ⟨rfl, rfl⟩ := Prod.mk.injEq .. ▸ hres
      refine ⟨Finset.Subset.refl _, haV, fun v _ => rfl, ha2, ha3, ?_⟩
      intro u huV h0 huA
      rcases hz u huV h0 with ⟨_, hl0⟩ | ⟨hw, _⟩
      · exact hl0
      · exact absurd hw (by simp [hwe])
    · rw [if_neg hwe] at hres
      set pred1 : ℕ → Finset ℕ :=
        fun v => pred v \ work.filter (fun u => v ∈ succ u) with hpred1def
      set next : Finset ℕ :=
        (work.biUnion succ).filter (fun v => pred1 v = ∅) with hnextdef
      set layer1 : ℕ → ℕ := fun v => if v ∈ work then lnow else layer v with hlayer1def
      -- elements of `work` are never in `assigned`
      have hnotin : ∀ v ∈ assigned, v ∉ work := fun v hv hw => hw2 v hw hv
      -- the updated pred entries again complement the assigned set
      have hpred1 : ∀ x, pred1 x = P0 x \ (assigned ∪ work) := by
        intro x
        rw [hpred1def]
        ext w
        simp only [Finset.mem_sdiff, Finset.mem_filter, Finset.mem_union, hpred,
          Hsucc]
        tauto
      -- membership in the next work set
      have hnext' : ∀ v ∈ next, (∃ u ∈ work, u ∈ P0 v) ∧ P0 v ⊆ assigned ∪ work := by
        intro v hv
        rw [hnextdef] at hv
        simp only [Finset.mem_filter, Finset.mem_biUnion, Hsucc, hpred1,
          Finset.sdiff_eq_empty_iff_subset] at hv
        exact ⟨hv.1, hv.2⟩
      have hnextA : ∀ v ∈ next, v ∉ assigned ∪ work := by
        intro v hv hmem
        obtain ⟨⟨u, huw, huP⟩, _⟩ := hnext' v hv
        rcases Finset.mem_union.mp hmem with hva | hvw
        · exact hw2 u huw (ha2 v hva u huP).1
        · exact hw2 u huw (hw1 v hvw huP)
      have hlay_w : ∀ v ∈ work, layer1 v = lnow := by
        intro v hv
        rw [hlayer1def]
        simp only [hv, if_pos]
      have hlay_a : ∀ v ∈ assigned, layer1 v = layer v := by
        intro v hv
        rw [hlayer1def]
        simp [hnotin v hv]
      have h2 : ∀ u ∈ next, P0 u ⊆ assigned ∪ work := fun u hu => (hnext' u hu).2
      have h3 : ∀ u ∈ next, u ∉ assigned ∪ work := hnextA
      have h4 : next ⊆ V := by
        intro v hv
        obtain ⟨⟨u, huw, huP⟩, _⟩ := hnext' v hv
        exact HsuccV u ((Hsucc v u).mpr huP)
      have h5 : assigned ∪ work ⊆ V := Finset.union_subset haV hwV
      have h6 : ∀ v ∈ assigned ∪ work, layer1 v < lnow + 1 := by
        intro v hv
        rcases Finset.mem_union.mp hv with hva | hvw
        · rw [hlay_a v hva]
          have := ha1 v hva
          omega
        · rw [hlay_w v hvw]
          omega
      have h7 : ∀ v ∈ assigned ∪ work, ∀ w ∈ P0 v,
          w ∈ assigned ∪ work ∧ layer1 w < layer1 v := by
        intro v hv w hw
        rcases Finset.mem_union.mp hv with hva | hvw
        · obtain ⟨hwa, hlt⟩ := ha2 v hva w hw
          refine ⟨Finset.mem_union_left _ hwa, ?_⟩
          rw [hlay_a w hwa, hlay_a v hva]
          exact hlt
        · have hwa : w ∈ assigned := hw1 v hvw hw
          refine ⟨Finset.mem_union_left _ hwa, ?_⟩
          rw [hlay_a w hwa, hlay_w v hvw]
          exact ha1 w hwa
      have h8 : ∀ v ∈ assigned ∪ work, layer1 v = 0 → P0 v = ∅ := by
        intro v hv h0
        rcases Finset.mem_union.mp hv with hva | hvw
        · rw [hlay_a v hva] at h0
          exact ha3 v hva h0
        · rw [hlay_w v hvw] at h0
          exact hw3 v hvw h0
      have h9 : ∀ u ∈ next, lnow + 1 = 0 → P0 u = ∅ :=
        fun u _ habs => absurd habs (Nat.succ_ne_zero lnow)
      have h10 : ∀ u ∈ V, P0 u = ∅ →
          (u ∈ assigned ∪ work ∧ layer1 u = 0) ∨ (u ∈ next ∧ lnow + 1 = 0) := by
        intro u huV h0
        left
        rcases hz u huV h0 with ⟨hua, hl0⟩ | ⟨huw, hln⟩
        · exact ⟨Finset.mem_union_left _ hua, by rw [hlay_a u hua]; exact hl0⟩
        · exact ⟨Finset.mem_union_right _ huw, by rw [hlay_w u huw]; exact hln⟩
      obtain ⟨hsub, hAV, hstab, hord, hzero, hz0⟩ :=
        ih pred1 next (lnow + 1) (assigned ∪ work) layer1 A L hpred1 h2 h3 h4 h5 h6
          h7 h8 h9 h10 hres
      refine ⟨?_, hAV, ?_, hord, hzero, hz0⟩
      · exact fun v hv => hsub (Finset.mem_union_left _ hv)
      · intro v hv
        rw [hstab v (Finset.mem_union_left _ hv), hlay_a v hv]

/-- The error message of a failed call, `none` on success. -/
def errMsg {α : Type} : Except String α → Option String
  | .error m => some m
  | .ok _ => none

/-- The successful result of a layer-inference call (junk on failure). -/
def okVal : Except String (Finset ℕ × (ℕ → ℕ)) → Finset ℕ × (ℕ → ℕ)
  | .ok r => r
  | .error _ => (∅, fun _ => 0)

/-- Everything `infer_layers` guarantees about a successful run: the returned
dictionary covers all nodes, respects every must-precede edge, and places a
node in layer 0 exactly when its `pred` entry started out empty. -/
lemma infer_layers_ok (g : SGraph) (f : VMap AnyF) (pp : Option (VMap PPlane))
    (d : Finset ℕ) (l : ℕ → ℕ) (hdom : f.dom ⊆ g.nodes)
    (h : infer_layers g f pp = Except.ok (d, l)) :
    d = g.nodes ∧ (∀ u v, must_precede g f pp u v → l v < l u) ∧
      (∀ u ∈ g.nodes, (l u = 0 ↔ pred_set g f pp u = ∅)) := by
  rw [infer_layers, infer_layers_impl] at h
  set V := g.nodes with hV
  set P0 := pred_set g f pp with hP0
  set succ := succ_set g f pp with hsuccdef
  split at h
  · exact absurd h (by simp)
  · rename_i hcard
    rw [not_ne_iff] at hcard
    rw [Except.ok.injEq] at h
    have hres : infer_loop succ (V.card + 1) P0 (V.filter (fun u => P0 u = ∅)) 0 ∅
        (fun _ => 0) = (d, l) := by
      rw [h]
    have Hsucc : ∀ u v : ℕ, u ∈ succ v ↔ v ∈ P0 u := fun u v =>
      mem_succ_set g f pp u v
    have HsuccV : ∀ v : ℕ, succ v ⊆ V := by
      intro v
      rw [hsuccdef, succ_set]
      exact (Finset.filter_subset _ _).trans hdom
    obtain ⟨hsub, hAV, hstab, hord, hzero, hz0⟩ :=
      infer_loop_spec V P0 succ Hsucc HsuccV (V.card + 1) P0
        (V.filter (fun u => P0 u = ∅)) 0 ∅ (fun _ => 0) d l
        (fun x => Finset.sdiff_empty.symm)
        (fun u hu => by simp [(Finset.mem_filter.mp hu).2])
        (fun u _ => Finset.not_mem_empty u)
        (Finset.filter_subset _ _) (Finset.empty_subset _)
        (fun v hv => absurd hv (Finset.not_mem_empty v))
        (fun v hv => absurd hv (Finset.not_mem_empty v))
        (fun v hv => absurd hv (Finset.not_mem_empty v))
        (fun u hu _ => (Finset.mem_filter.mp hu).2)
        (fun u huV h0 => Or.inr ⟨Finset.mem_filter.mpr ⟨huV, h0⟩, rfl⟩)
        hres
    have hcard' : d.card = V.card := by
      rw [h] at hcard
      simpa using hcard
    have hdV : d = V := Finset.eq_of_subset_of_card_le hAV (le_of_eq hcard'.symm)
    refine ⟨hdV, ?_, ?_⟩
    · intro u v hmp
      have huA : u ∈ d := by
        rw [hdV]
        exact hdom hmp.1
      have hv : v ∈ P0 u := (mem_pred_set g f pp u v).mpr hmp
      exact (hord u huA v hv).2
    · intro u huV
      constructor
      · intro h0
        exact hzero u (hdV ▸ huV) h0
      · intro h0
        exact hz0 u huV h0 (hdV ▸ huV)

/-- The triangle graph `V = {0,1,2}`, edges `{(0,1),(1,2),(2,0)}`. -/
def gTri : SGraph :=
  ⟨{0, 1, 2}, fun v =>
    if v = 0 then {1, 2} else if v = 1 then {0, 2} else if v = 2 then {0, 1} else ∅⟩

/-- The cyclic flow `{0: {1}, 1: {2}, 2: {0}}` on the triangle. -/
def fTri : VMap AnyF :=
  ⟨{0, 1, 2}, fun v =>
    if v = 0 then .subset {1} else if v = 1 then .subset {2} else .subset {0}⟩

/-- The line graph `0 - 1 - 2 - 3`. -/
def gLine : SGraph :=
  ⟨{0, 1, 2, 3}, fun v =>
    if v = 0 then {1} else if v = 1 then {0, 2} else if v = 2 then {1, 3}
    else if v = 3 then {2} else ∅⟩

/-- The causal flow `{0: {1}, 1: {2}, 2: {3}}` on the line graph. -/
def fLine : VMap AnyF :=
  ⟨{0, 1, 2}, fun v =>
    if v = 0 then .subset {1} else if v = 1 then .subset {2} else .subset {3}⟩

/-- C3 (amended): when `infer_layers` succeeds, the returned layering is total
over `g.nodes` and satisfies `ℓ(u) > ℓ(v)` for every non-special must-precede
edge `u → v`; on the triangle `V = {0,1,2}` with `f = {0:{1}, 1:{2}, 2:{0}}`
it fails, raising `ValueError` with the message
`Failed to determine layer for all nodes.` (not the spec's phrase
`cannot determine layer`). -/
theorem infer_layers_sound :
    (∀ (g : SGraph) (f : VMap AnyF) (pp : Option (VMap PPlane)) (d : Finset ℕ)
      (l : ℕ → ℕ), f.dom ⊆ g.nodes →
      (∀ u ∈ f.dom, (f.val u).toSet ∪ oddN g (f.val u).toSet ⊆ g.nodes) →
      infer_layers g f pp = Except.ok (d, l) →
      d = g.nodes ∧ ∀ u v, must_precede g f pp u v → l v < l u) ∧
      errMsg (infer_layers gTri fTri none) =
        some "Failed to determine layer for all nodes." := by
  constructor
  · intro g f pp d l hdom _ h
    obtain ⟨hd, hord, _⟩ := infer_layers_ok g f pp d l hdom h
    exact ⟨hd, hord⟩
  · decide

/-- Witness for C3 on the line graph `0 - 1 - 2 - 3` with
`f = {0:{1}, 1:{2}, 2:{3}}`: inference succeeds, covers all nodes, and orders
the must-precede edge `0 → 1`. -/
theorem infer_layers_sound_witness :
    (okVal (infer_layers gLine fLine none)).1 = gLine.nodes ∧
      (okVal (infer_layers gLine fLine none)).2 1 <
        (okVal (infer_layers gLine fLine none)).2 0 := by
  have h := infer_layers_sound.1 gLine fLine none
    (okVal (infer_layers gLine fLine none)).1
    (okVal (infer_layers gLine fLine none)).2 (by decide) (by decide) rfl
  exact ⟨h.1, h.2 0 1 (by decide)⟩

/-- C3 counterexample: on the triangle instance named by the claim, the raised
message is `Failed to determine layer for all nodes.`, not the claimed
`cannot determine layer`. -/
theorem infer_layers_msg_counterexample :
    errMsg (infer_layers gTri fTri none) =
        some "Failed to determine layer for all nodes." ∧
      errMsg (infer_layers gTri fTri none) ≠ some "cannot determine layer" := by
  constructor
  · decide
  · decide

/-- Path `0 - 1` plus the isolated node `2`. -/
def gIso : SGraph :=
  ⟨{0, 1, 2}, fun v => if v = 0 then {1} else if v = 1 then {0} else ∅⟩

/-- The flow `{0: {1}}` on `gIso`; node `2` appears in no correction
constraint (the natural output set is `{1}`, so `2` is a non-output). -/
def fIso : VMap AnyF := ⟨{0}, fun _ => .subset {1}⟩

/-- C9: a successful `infer_layers` run layers every node of the graph (not
only the flow domain), and a node gets layer 0 iff it has no outgoing
must-precede edge; on `gIso` with output set `{1}`, the non-output isolated
node `2` gets layer 0, so `ℓ(u) = 0 ⇔ u ∈ O` can fail. -/
theorem infer_layers_total_and_zero :
    (∀ (g : SGraph) (f : VMap AnyF) (pp : Option (VMap PPlane)) (d : Finset ℕ)
      (l : ℕ → ℕ), f.dom ⊆ g.nodes →
      (∀ u ∈ f.dom, (f.val u).toSet ∪ oddN g (f.val u).toSet ⊆ g.nodes) →
      infer_layers g f pp = Except.ok (d, l) →
      d = g.nodes ∧ ∀ u ∈ g.nodes, (l u = 0 ↔ ∀ v, ¬must_precede g f pp u v)) ∧
      ((okVal (infer_layers gIso fIso none)).2 2 = 0 ∧
        (2 : ℕ) ∉ ({1} : Finset ℕ)) := by
  constructor
  · intro g f pp d l hdom _ h
    obtain ⟨hd, _, hzero⟩ := infer_layers_ok g f pp d l hdom h
    refine ⟨hd, fun u hu => ?_⟩
    rw [hzero u hu, Finset.eq_empty_iff_forall_not_mem]
    constructor
    · intro hp v hv
      exact hp v ((mem_pred_set g f pp u v).mpr hv)
    · intro hp v hv
      exact hp v ((mem_pred_set g f pp u v).mp hv)
  · constructor
    · decide
    · decide

/-- Witness for C9 at `gIso`/`fIso`: node `2` is layered 0 because it has no
outgoing must-precede edge, and the returned dictionary covers all nodes. -/
theorem infer_layers_total_and_zero_witness :
    (okVal (infer_layers gIso fIso none)).1 = gIso.nodes ∧
      (okVal (infer_layers gIso fIso none)).2 2 = 0 := by
  have h := infer_layers_total_and_zero.1 gIso fIso none
    (okVal (infer_layers gIso fIso none)).1
    (okVal (infer_layers gIso fIso none)).2 (by decide) (by decide) rfl
  refine ⟨h.1, ?_⟩
  refine (h.2 2 (by decide)).mpr ?_
  intro v hv
  exact absurd hv.1 (by decide)

lemma special_edges_congr (g : SGraph) (f1 f2 : VMap AnyF)
    (pp : Option (VMap PPlane)) (hdom : f1.dom = f2.dom)
    (hval : ∀ u, (f1.val u).toSet = (f2.val u).toSet) :
    special_edges g f1 pp = special_edges g f2 pp := by
  cases pp with
  | none => rfl
  | some pm =>
    rw [special_edges, special_edges]
    refine Finset.biUnion_congr hdom ?_
    intro u _
    rw [hval u]

lemma pred_set_congr (g : SGraph) (f1 f2 : VMap AnyF) (pp : Option (VMap PPlane))
    (hdom : f1.dom = f2.dom) (hval : ∀ u, (f1.val u).toSet = (f2.val u).toSet) :
    pred_set g f1 pp = pred_set g f2 pp := by
  funext u
  rw [pred_set, pred_set, hdom, hval u, special_edges_congr g f1 f2 pp hdom hval]

lemma succ_set_congr (g : SGraph) (f1 f2 : VMap AnyF) (pp : Option (VMap PPlane))
    (hdom : f1.dom = f2.dom) (hval : ∀ u, (f1.val u).toSet = (f2.val u).toSet) :
    succ_set g f1 pp = succ_set g f2 pp := by
  funext v
  rw [succ_set, succ_set, hdom, pred_set_congr g f1 f2 pp hdom hval]

/-- C10: the singleton-valued (causal) flow `u ↦ v` and the subset-valued flow
`u ↦ {v}` are treated identically: `_special_edges` and `infer_layers` agree
on the two representations (both normalize with
`fu_ if isinstance(fu_, AbstractSet) else {fu_}`). -/
theorem anyflow_single_subset_equiv (g : SGraph) (d : Finset ℕ) (fv : ℕ → ℕ)
    (pp : Option (VMap PPlane)) :
    special_edges g ⟨d, fun u => .single (fv u)⟩ pp =
        special_edges g ⟨d, fun u => .subset {fv u}⟩ pp ∧
      infer_layers g ⟨d, fun u => .single (fv u)⟩ pp =
        infer_layers g ⟨d, fun u => .subset {fv u}⟩ pp := by
  have hdom : (⟨d, fun u => AnyF.single (fv u)⟩ : VMap AnyF).dom =
      (⟨d, fun u => AnyF.subset {fv u}⟩ : VMap AnyF).dom := rfl
  have hval : ∀ u, ((⟨d, fun u => AnyF.single (fv u)⟩ : VMap AnyF).val u).toSet =
      ((⟨d, fun u => AnyF.subset {fv u}⟩ : VMap AnyF).val u).toSet := fun _ => rfl
  refine ⟨special_edges_congr g _ _ pp hdom hval, ?_⟩
  rw [infer_layers, infer_layers, pred_set_congr g _ _ pp hdom hval,
    succ_set_congr g _ _ pp hdom hval]

/-- `_common.check_graph(g, iset, oset)`: raise `ValueError` when the graph is
empty, has a self-loop, or `iset`/`oset` is not a subset of the nodes (the
`TypeError` branches guard Python dynamic typing and are statically excluded
here; a `networkx.Graph` cannot hold multi-edges). -/
def check_graph (g : SGraph) (iset oset : Finset ℕ) : Except String Unit :=
  if g.nodes = ∅ then Except.error "Graph is empty."
  else if ∃ v ∈ g.nodes, v ∈ g.adj v then Except.error "Self-loop detected."
  else if ¬iset ⊆ g.nodes then Except.error "iset must be a subset of the nodes."
  else if ¬oset ⊆ g.nodes then Except.error "oset must be a subset of the nodes."
  else Except.ok ()

/-- C7: `check_graph` raises iff the graph is empty, has a self-loop, or
`iset`/`oset` is not a subset of the node set; equivalently it returns
normally exactly on non-empty simple open graphs (it is a pure check and
leaves its inputs untouched). -/
theorem check_graph_spec (g : SGraph) (iset oset : Finset ℕ) :
    check_graph g iset oset = Except.ok () ↔
      g.nodes ≠ ∅ ∧ (∀ v ∈ g.nodes, v ∉ g.adj v) ∧ iset ⊆ g.nodes ∧
        oset ⊆ g.nodes := by
  rw [check_graph]
  split
  · rename_i h
    simp [h]
  · split
    · rename_i h hs
      simp only [reduceCtorEq, false_iff, not_and]
      intro _ hnl
      obtain ⟨v, hv, hvl⟩ := hs
      exact absurd hvl (hnl v hv)
    · split
      · rename_i h hs hi
        simp [hi]
      · split
        · rename_i h hs hi ho
          simp [ho]
        · rename_i h hs hi ho
          simp only [true_iff]
          push_neg at hs hi ho
          exact ⟨h, hs, hi, ho⟩

/-- `_common.check_planelike(vset, oset, plike)`: only the key set of the
measurement mapping is inspected; raise when some key is outside `vset`, when
some vertex of `V \ O` has no entry, or when a key lies outside `V \ O`. -/
def check_planelike {α : Type} (vset oset : Finset ℕ) (plike : VMap α) :
    Except String Unit :=
  if ¬plike.dom ⊆ vset then
    Except.error "Cannot find corresponding nodes in the graph."
  else if ¬vset \ oset ⊆ plike.dom then
    Except.error "Measurement planes should be specified for all u in V\\O."
  else if ¬plike.dom ⊆ vset \ oset then
    Except.error "Excessive measurement planes specified."
  else Except.ok ()

/-- The validation prefix of `gflow.find`: `check_graph`, then the
`dict.fromkeys(vset - oset, Plane.XY)` default, then `check_planelike`.  The
native solver runs only after this returns `ok`. -/
def gflow_find_checks (g : SGraph) (iset oset : Finset ℕ)
    (planes : Option (VMap Plane)) : Except String Unit :=
  match check_graph g iset oset with
  | .error e => .error e
  | .ok _ =>
    let pl := match planes with
      | none => ⟨g.nodes \ oset, fun _ => Plane.XY⟩
      | some p => p
    check_planelike g.nodes oset pl

/-- C6: `check_planelike` succeeds iff the mapping's key set is exactly
`V \ O` (both a missing entry on `V \ O` and a key outside `V \ O` raise),
and `gflow.find` on `V = {0,1}`, edge `(0,1)`, `I = {0}`, `O = {1}` with
planes supplied for both `0` and `1` fails with
`Excessive measurement planes specified.`. -/
theorem check_planelike_spec :
    (∀ (α : Type) (vset oset : Finset ℕ) (plike : VMap α),
      check_planelike vset oset plike = Except.ok () ↔ plike.dom = vset \ oset) ∧
      errMsg (gflow_find_checks gPath2 {0} {1}
          (some ⟨{0, 1}, fun _ => Plane.XY⟩)) =
        some "Excessive measurement planes specified." := by
  constructor
  · intro α vset oset plike
    rw [check_planelike]
    split
    · rename_i hv
      simp only [reduceCtorEq, false_iff]
      intro hd
      rw [hd] at hv
      exact hv (Finset.sdiff_subset)
    · split
      · rename_i hv hc
        simp only [reduceCtorEq, false_iff]
        intro hd
        rw [hd] at hc
        exact hc (Finset.Subset.refl _)
      · split
        · rename_i hv hc he
          simp only [reduceCtorEq, false_iff]
          intro hd
          rw [hd] at he
          exact he (Finset.Subset.refl _)
        · rename_i hv hc he
          simp only [true_iff]
          push_neg at hc he
          exact Finset.Subset.antisymm he hc
  · decide

/-- A verifier candidate: either the tuple `(f, layer)` or the bare flow
mapping (`flow if isinstance(flow, tuple) else ...`). -/
inductive FCand (F : Type) where
  | pair (f : F) (layer : VMap ℕ)
  | bare (f : F)

/-- The state `flow.verify` hands to the remainder of its body (the optional
`check_layer` call, the `IndexMap` codec, and the native `flow_bind.verify`
call): that remainder is a pure function of exactly these values, so the
Python front-end is embedded up to this cut. -/
structure FlowVerifyArgs where
  f : VMap ℕ
  layer : VMap ℕ
  g : SGraph
  iset : Finset ℕ
  oset : Finset ℕ
  ensure_optimal : Bool

/-- The state `gflow.verify` hands to the remainder of its body (the codec and
the native `gflow_bind.verify` call).  `_codec_wrap` passes `None` in place of
the layers when the caller supplied a bare gflow; no Python-level layer
inference happens and no `ensure_optimal` flag exists. -/
structure GFlowVerifyArgs where
  f : VMap (Finset ℕ)
  layers : Option (VMap ℕ)
  g : SGraph
  iset : Finset ℕ
  oset : Finset ℕ
  planes : VMap Plane

/-- The state `pflow.verify` hands to the remainder of its body (the optional
`check_layer` call, the `pplane` default, the codec, and the native
`pflow_bind.verify` call). -/
structure PFlowVerifyArgs where
  f : VMap (Finset ℕ)
  layer : VMap ℕ
  g : SGraph
  iset : Finset ℕ
  oset : Finset ℕ
  pplane : Option (VMap PPlane)
  ensure_optimal : Bool

/-- Modelled from the spec: `_common.infer_layer` (the singular API shape) is
referenced by `pflow.py` and by the test suite but its definition is not under
`src/`; per §4.6 and the design note fixing the open question (inference uses
the same special-edge set as verification), it is C6 layer inference, i.e.
`infer_layers`. -/
def infer_layer (g : SGraph) (anyflow : VMap AnyF)
    (pplane : Option (VMap PPlane) := none) : Except String (Finset ℕ × (ℕ → ℕ)) :=
  infer_layers g anyflow pplane

/-- `flow.verify(flow, g, iset, oset, *, ensure_optimal=False)` up to the
missing-native cut: `check_graph`, then
`flow if isinstance(flow, tuple) else (flow, _common.infer_layers(g, flow))`
(a bare causal flow has vertex values, hence `AnyF.single`). -/
def flow_verify (flow : FCand (VMap ℕ)) (g : SGraph) (iset oset : Finset ℕ)
    (ensure_optimal : Bool := false) : Except String FlowVerifyArgs :=
  match check_graph g iset oset with
  | .error e => .error e
  | .ok _ =>
    match flow with
    | .pair f l => .ok ⟨f, l, g, iset, oset, ensure_optimal⟩
    | .bare f =>
      match infer_layers g ⟨f.dom, fun u => .single (f.val u)⟩ none with
      | .error e => .error e
      | .ok (d, l) => .ok ⟨f, ⟨d, l⟩, g, iset, oset, ensure_optimal⟩

/-- `gflow.verify(gflow, g, iset, oset, *, planes=None)` up to the
missing-native cut: `check_graph`, the `Plane.XY` default, and `_codec_wrap`
(layers become `None` for a bare gflow). -/
def gflow_verify (gflow : FCand (VMap (Finset ℕ))) (g : SGraph)
    (iset oset : Finset ℕ) (planes : Option (VMap Plane) := none) :
    Except String GFlowVerifyArgs :=
  match check_graph g iset oset with
  | .error e => .error e
  | .ok _ =>
    let planes' : VMap Plane := match planes with
      | none => ⟨g.nodes \ oset, fun _ => Plane.XY⟩
      | some p => p
    match gflow with
    | .pair f l => .ok ⟨f, some l, g, iset, oset, planes'⟩
    | .bare f => .ok ⟨f, none, g, iset, oset, planes'⟩

/-- `pflow.verify(pflow, g, iset, oset, *, pplane=None, ensure_optimal=False)`
up to the missing-native cut: `check_graph`, then the dispatch calling
`_common.infer_layer(g, pflow, pplane)` on a bare Pauli flow. -/
def pflow_verify (pflow : FCand (VMap (Finset ℕ))) (g : SGraph)
    (iset oset : Finset ℕ) (pplane : Option (VMap PPlane) := none)
    (ensure_optimal : Bool := false) : Except String PFlowVerifyArgs :=
  match check_graph g iset oset with
  | .error e => .error e
  | .ok _ =>
    match pflow with
    | .pair f l => .ok ⟨f, l, g, iset, oset, pplane, ensure_optimal⟩
    | .bare f =>
      match infer_layer g ⟨f.dom, fun u => .subset (f.val u)⟩ pplane with
      | .error e => .error e
      | .ok (d, l) => .ok ⟨f, ⟨d, l⟩, g, iset, oset, pplane, ensure_optimal⟩

/-- Signature metadata of a verifier entry point, read off the Python `def`
lines: whether it declares an `ensure_optimal` keyword and its default. -/
structure VerifySig where
  has_ensure_optimal : Bool
  default_value : Option Bool
deriving DecidableEq

/-- `flow.py`: `def verify(flow, g, iset, oset, *, ensure_optimal: bool = False)`. -/
def flow_verify_sig : VerifySig := ⟨true, some false⟩

/-- `gflow.py`: `def verify(gflow, g, iset, oset, *, planes=None)` — no
`ensure_optimal` parameter, and none is forwarded to the native call. -/
def gflow_verify_sig : VerifySig := ⟨false, none⟩

/-- `pflow.py`: `def verify(pflow, g, iset, oset, *, pplane=None,
ensure_optimal: bool = False)`. -/
def pflow_verify_sig : VerifySig := ⟨true, some false⟩

/-- C5 (amended): `flow.verify` and `pflow.verify` take an `ensure_optimal`
flag defaulting to `False` — omitting it behaves identically to passing
`False` — but `gflow.verify` declares no such flag at all. -/
theorem ensure_optimal_defaults :
    flow_verify_sig = ⟨true, some false⟩ ∧ pflow_verify_sig = ⟨true, some false⟩ ∧
      gflow_verify_sig = ⟨false, none⟩ ∧
      (∀ (fl : FCand (VMap ℕ)) (g : SGraph) (i o : Finset ℕ),
        flow_verify fl g i o = flow_verify fl g i o false) ∧
      (∀ (pf : FCand (VMap (Finset ℕ))) (g : SGraph) (i o : Finset ℕ)
        (pp : Option (VMap PPlane)),
        pflow_verify pf g i o pp = pflow_verify pf g i o pp false) :=
  ⟨rfl, rfl, rfl, fun _ _ _ _ => rfl, fun _ _ _ _ _ => rfl⟩

/-- C5 counterexample: the claim says all three verifiers take
`ensure_optimal` defaulting to `False`; `gflow.verify` has no such
parameter. -/
theorem ensure_optimal_counterexample :
    gflow_verify_sig.has_ensure_optimal = false ∧
      ¬(flow_verify_sig.has_ensure_optimal = true ∧
        gflow_verify_sig.has_ensure_optimal = true ∧
        pflow_verify_sig.has_ensure_optimal = true) := by
  constructor
  · rfl
  · intro h
    exact absurd h.2.1 (by decide)

/-- `IndexMap.__init__`: for orderable vertices the index list is the sorted
node list (for `ℕ`, the increasing enumeration). -/
def idx_i2v (vset : Finset ℕ) : List ℕ := enumList vset

/-- `IndexMap.encode`: position of a vertex in the index list. -/
def idx_encode (i2v : List ℕ) (v : ℕ) : ℕ := i2v.indexOf v

/-- `IndexMap.decode`: vertex stored at an index. -/
def idx_decode (i2v : List ℕ) (i : ℕ) : ℕ := i2v.getD i 0

/-- `IndexMap.encode_set`. -/
def idx_encode_set (i2v : List ℕ) (s : Finset ℕ) : Finset ℕ :=
  s.image (idx_encode i2v)

/-- `IndexMap.encode_graph`: the adjacency sets listed in index order. -/
def idx_encode_graph (i2v : List ℕ) (g : SGraph) : List (Finset ℕ) :=
  i2v.map (fun v => idx_encode_set i2v (g.adj v))

/-- `IndexMap.encode_dictkey`. -/
def idx_encode_vmap {α : Type} (i2v : List ℕ) (m : VMap α) : VMap α :=
  ⟨idx_encode_set i2v m.dom, fun i => m.val (idx_decode i2v i)⟩

/-- `IndexMap.decode_set`. -/
def idx_decode_set (i2v : List ℕ) (s : Finset ℕ) : Finset ℕ :=
  s.image (idx_decode i2v)

/-- `IndexMap.decode_gflow`. -/
def idx_decode_gflow (i2v : List ℕ) (m : VMap (Finset ℕ)) : VMap (Finset ℕ) :=
  ⟨idx_decode_set i2v m.dom, fun v => idx_decode_set i2v (m.val (idx_encode i2v v))⟩

/-- `IndexMap.decode_layer`: a layer list indexed by `[0, n)` becomes a
mapping over the original vertices. -/
def idx_decode_layer (i2v : List ℕ) (layer : List ℕ) : VMap ℕ :=
  ⟨i2v.toFinset, fun v => layer.getD (idx_encode i2v v) 0⟩

/-- XOR of two GF(2) rows (coefficient vector plus right-hand side). -/
def row_xor (r1 r2 : List Bool × Bool) : List Bool × Bool :=
  (List.zipWith xor r1.1 r2.1, xor r1.2 r2.2)

/-- Extract the first (lowest-index) row with a true coefficient in column
`c`, returning it together with the remaining rows. -/
def extract_pivot (c : ℕ) : List (List Bool × Bool) →
    Option ((List Bool × Bool) × List (List Bool × Bool))
  | [] => none
  | r :: rs =>
    if r.1.getD c false then some (r, rs)
    else
      match extract_pivot c rs with
      | none => none
      | some (p, rest) => some (p, r :: rest)

/-- Forward elimination over the given column order: for each column pick the
first remaining row with a true coefficient there as pivot and XOR it into
every other remaining row with a true coefficient in that column. -/
def elim_cols : List ℕ → List (List Bool × Bool) →
    List (ℕ × (List Bool × Bool)) →
    List (ℕ × (List Bool × Bool)) × List (List Bool × Bool)
  | [], rows, pivots => (pivots, rows)
  | c :: cs, rows, pivots =>
    match extract_pivot c rows with
    | none => elim_cols cs rows pivots
    | some (p, rest) =>
      elim_cols cs (rest.map (fun r => if r.1.getD c false then row_xor r p else r))
        (pivots ++ [(c, p)])

/-- GF(2) dot product. -/
def dot_bool (a b : List Bool) : Bool := (List.zipWith and a b).foldl xor false

/-- Back substitution in decreasing pivot-column order; free variables keep
the value `false`. -/
def back_sub : List (ℕ × (List Bool × Bool)) → List Bool → List Bool
  | [], x => x
  | (c, p) :: ps, x =>
    let x1 := back_sub ps x
    x1.set c (xor p.2 (dot_bool p.1 x1))

/-- Modelled from the spec: the GF(2) linear solver C1 of the native core
(§4.1, absent from `src/`).  `solve` for one right-hand side: Gaussian
elimination with deterministic pivot selection (lowest row index for each
column, columns in increasing order), free variables set to 0; `none` when
some exhausted row has a non-zero right-hand side. -/
def solve_gf2 (ncols : ℕ) (rows : List (List Bool × Bool)) : Option (List Bool) :=
  match elim_cols (List.range ncols) rows [] with
  | (pivots, rest) =>
    if rest.all (fun r => r.2 = false) then
      some (back_sub pivots (List.replicate ncols false))
    else none

/-- `True` exactly on the Pauli measurements `X`, `Y`, `Z`. -/
def pauliPP (p : PPlane) : Bool :=
  match p with
  | .X | .Y | .Z => true
  | _ => false

/-- Adjacency row of vertex `w` restricted to the corrector list. -/
def corr_row (gl : List (Finset ℕ)) (corr : List ℕ) (w : ℕ) : List Bool :=
  corr.map (fun c => decide (c ∈ gl.getD w ∅))

/-- Indicator row selecting `u` inside the corrector list. -/
def unit_row (corr : List ℕ) (u : ℕ) : List Bool :=
  corr.map (fun c => decide (c = u))

/-- Modelled from the spec: the GF(2) system a candidate `u` must solve at one
peel step of the Pauli-flow finder (§4.4 step 4 and §4.5).  Unknowns are
memberships `x_c = [c ∈ f(u)]` over the corrector pool; the rows encode the
solvability requirement of `u` by its measurement (`XY`: `u ∈ Odd(f(u))`;
`YZ`: `u ∈ f(u)`, `u ∉ Odd(f(u))`; `XZ`: `u ∈ f(u)`, `u ∈ Odd(f(u))`;
`X`: `u ∈ Odd(f(u))`; `Y`: `u ∈ f(u) ⊕ Odd(f(u))`; `Z`: `u ∈ f(u)`) plus
`w ∉ Odd(f(u))` for every other not-yet-solved, non-Pauli candidate `w` (§4.5
leaves Pauli-measured candidates unconstrained here, their order constraints
being relaxable through special edges). -/
def pf_rows (gl : List (Finset ℕ)) (pp : VMap PPlane) (corr : List ℕ)
    (cands : Finset ℕ) (u : ℕ) : List (List Bool × Bool) :=
  (match pp.val u with
    | .XY => [(corr_row gl corr u, true)]
    | .YZ => [(unit_row corr u, true), (corr_row gl corr u, false)]
    | .XZ => [(unit_row corr u, true), (corr_row gl corr u, true)]
    | .X => [(corr_row gl corr u, true)]
    | .Y => [(List.zipWith xor (corr_row gl corr u) (unit_row corr u), true)]
    | .Z => [(unit_row corr u, true)]) ++
    (enumList (cands.erase u)).filterMap (fun w =>
      if pauliPP (pp.val w) then none else some (corr_row gl corr w, false))

/-- Correction set for candidate `u` at one peel step, when solvable. -/
def pf_solve_for (gl : List (Finset ℕ)) (pp : VMap PPlane) (corr : List ℕ)
    (cands : Finset ℕ) (u : ℕ) : Option (Finset ℕ) :=
  (solve_gf2 corr.length (pf_rows gl pp corr cands u)).map (fun x =>
    ((corr.zip x).filterMap (fun cb => if cb.2 then some cb.1 else none)).toFinset)

/-- Modelled from the spec: the peel loop of the native Pauli-flow finder
(§4.4 steps 1–7 extended by §4.5, absent from `src/`).  At step `k+1` the
corrector pool is `(solved \ I)` plus every unsolved Pauli-measured vertex;
every solvable candidate is accepted with layer `k+1`; the loop stops when no
candidate is solvable, succeeding iff every vertex is solved. -/
def pf_core_loop (gl : List (Finset ℕ)) (iset : Finset ℕ) (pp : VMap PPlane) :
    ℕ → Finset ℕ → VMap (Finset ℕ) → (ℕ → ℕ) → ℕ →
    Option (VMap (Finset ℕ) × List ℕ)
  | 0, solved, f, layer, _ =>
    if solved = Finset.range gl.length then
      some (f, (List.range gl.length).map layer)
    else none
  | fuel + 1, solved, f, layer, k =>
    if solved = Finset.range gl.length then
      some (f, (List.range gl.length).map layer)
    else
      let cands := Finset.range gl.length \ solved
      let corrL := enumList ((solved \ iset) ∪ cands.filter (fun v => pauliPP (pp.val v)))
      let next := cands.filter (fun u => (pf_solve_for gl pp corrL cands u).isSome)
      if next = ∅ then none
      else
        pf_core_loop gl iset pp fuel (solved ∪ next)
          ⟨f.dom ∪ next, fun u =>
            if u ∈ next then (pf_solve_for gl pp corrL cands u).getD ∅ else f.val u⟩
          (fun v => if v ∈ next then k + 1 else layer v) (k + 1)

/-- Modelled from the spec: `pflow_bind.find` on the encoded open graph
(§4.5): outputs start solved in layer 0, then the peel loop runs. -/
def pflow_find_core (gl : List (Finset ℕ)) (iset oset : Finset ℕ)
    (pp : VMap PPlane) : Option (VMap (Finset ℕ) × List ℕ) :=
  pf_core_loop gl iset pp (gl.length + 1) oset ⟨∅, fun _ => ∅⟩ (fun _ => 0) 0

/-- The `dict.fromkeys(vset - oset, PPlane.XY)` default of `pflow.find` and
`pflow.verify`. -/
def pplane_default (g : SGraph) (oset : Finset ℕ)
    (pplane : Option (VMap PPlane)) : VMap PPlane :=
  match pplane with
  | none => ⟨g.nodes \ oset, fun _ => PPlane.XY⟩
  | some p => p

/-- `pflow.find(g, iset, oset, *, pplane=None)`: `check_graph`, the `XY`
default, `check_planelike`, the non-fatal advisory
(`warnings.warn("No Pauli measurement found. Use gflow.find instead.")`) when
no value of the measurement map is `X`/`Y`/`Z`, then the codec and the native
core.  The advisory flag is returned alongside the result. -/
def pflow_find (g : SGraph) (iset oset : Finset ℕ)
    (pplane : Option (VMap PPlane) := none) :
    Except String (Bool × Option (VMap (Finset ℕ) × VMap ℕ)) :=
  match check_graph g iset oset with
  | .error e => .error e
  | .ok _ =>
    match check_planelike g.nodes oset (pplane_default g oset pplane) with
    | .error e => .error e
    | .ok _ =>
      let pp := pplane_default g oset pplane
      let warned := decide (∀ u ∈ pp.dom, pauliPP (pp.val u) = false)
      let i2v := idx_i2v g.nodes
      match pflow_find_core (idx_encode_graph i2v g) (idx_encode_set i2v iset)
          (idx_encode_set i2v oset) (idx_encode_vmap i2v pp) with
      | some (f2, layer2) =>
        .ok (warned, some (idx_decode_gflow i2v f2, idx_decode_layer i2v layer2))
      | none => .ok (warned, none)

/-- The successful result of a `pflow.find` call (junk on failure). -/
def okFind : Except String (Bool × Option (VMap (Finset ℕ) × VMap ℕ)) →
    Bool × Option (VMap (Finset ℕ) × VMap ℕ)
  | .ok r => r
  | .error _ => (false, none)

/-- Domain of the found flow, `none` when no flow was found. -/
def found_fdom : Bool × Option (VMap (Finset ℕ) × VMap ℕ) → Option (Finset ℕ)
  | (_, some (f, _)) => some f.dom
  | _ => none

/-- Value of the found flow at a vertex, `none` when no flow was found. -/
def found_fval : Bool × Option (VMap (Finset ℕ) × VMap ℕ) → ℕ → Option (Finset ℕ)
  | (_, some (f, _)), v => some (f.val v)
  | _, _ => none

/-- Layer of a vertex in the found result, `none` when no flow was found. -/
def found_layer : Bool × Option (VMap (Finset ℕ) × VMap ℕ) → ℕ → Option ℕ
  | (_, some (_, l)), v => some (l.val v)
  | _, _ => none

/-- C8: a `pflow.find` call that passes validation emits the advisory iff no
entry of the (defaulted) measurement map is `X`/`Y`/`Z`, and still proceeds;
on `V = {0,1}`, edge `(0,1)`, `I = {0}`, `O = {1}`, `pplane = {0: XY}` it
warns yet succeeds with `f = {0: {1}}` (layers `{0: 1, 1: 0}`); with the
Pauli entry `{0: X}` no advisory is emitted. -/
theorem pflow_find_advisory :
    (∀ (g : SGraph) (i o : Finset ℕ) (pm : Option (VMap PPlane)) (w : Bool)
      (r : Option (VMap (Finset ℕ) × VMap ℕ)),
      pflow_find g i o pm = Except.ok (w, r) →
      (w = true ↔ ∀ u ∈ (pplane_default g o pm).dom,
        pauliPP ((pplane_default g o pm).val u) = false)) ∧
      ((okFind (pflow_find gPath2 {0} {1} (some ⟨{0}, fun _ => PPlane.XY⟩))).1 =
          true ∧
        found_fdom (okFind (pflow_find gPath2 {0} {1}
          (some ⟨{0}, fun _ => PPlane.XY⟩))) = some {0} ∧
        found_fval (okFind (pflow_find gPath2 {0} {1}
          (some ⟨{0}, fun _ => PPlane.XY⟩))) 0 = some {1} ∧
        found_layer (okFind (pflow_find gPath2 {0} {1}
          (some ⟨{0}, fun _ => PPlane.XY⟩))) 0 = some 1 ∧
        found_layer (okFind (pflow_find gPath2 {0} {1}
          (some ⟨{0}, fun _ => PPlane.XY⟩))) 1 = some 0) ∧
      (okFind (pflow_find gPath2 {0} {1} (some ⟨{0}, fun _ => PPlane.X⟩))).1 =
        false := by
  refine ⟨?_, by decide, by decide⟩
  intro g i o pm w r h
  rw [pflow_find] at h
  split at h
  · exact absurd h (by simp)
  · split at h
    · exact absurd h (by simp)
    · dsimp only at h
      split at h
      · rw [Except.ok.injEq, Prod.mk.injEq] at h
        rw [← h.1, decide_eq_true_iff]
      · rw [Except.ok.injEq, Prod.mk.injEq] at h
        rw [← h.1, decide_eq_true_iff]

/-- Witness for C8 at the S5 instance: applying the advisory
characterization shows the warning flag is set. -/
theorem pflow_find_advisory_witness :
    (okFind (pflow_find gPath2 {0} {1} (some ⟨{0}, fun _ => PPlane.XY⟩))).1 =
      true := by
  have h := pflow_find_advisory.1 gPath2 {0} {1} (some ⟨{0}, fun _ => PPlane.XY⟩)
    (okFind (pflow_find gPath2 {0} {1} (some ⟨{0}, fun _ => PPlane.XY⟩))).1
    (okFind (pflow_find gPath2 {0} {1} (some ⟨{0}, fun _ => PPlane.XY⟩))).2
    (by rfl)
  exact h.mpr (by decide)

end Swiflow
